import Mathlib

/-!
Verification development for the supply-chain toolkit.

Part 1 embeds the EOQ engine `compute_eoq` (identical in `app.py` and
`pages/1_Inventory_Toolkit_EOQ.py`) over the reals.  Python float
division raises `ZeroDivisionError` on a zero denominator and
`math.sqrt` raises `ValueError` on a negative argument, so both are
modelled as `Except`-valued operations; the rest of the arithmetic is
exact real arithmetic.

Part 2 embeds the segmentation engine of
`pages/2_Segmentation_Toolkit.py` over the rationals (the pandas
pipeline there never divides by zero: every division is guarded by a
`total > 0` test in the source).
-/

set_option maxHeartbeats 1000000

/-- Python exceptions that the embedded EOQ code can raise. -/
inductive PyError where
  | valueError (msg : String)
  | zeroDivisionError
deriving DecidableEq

/-- Python float division: raises `ZeroDivisionError` on a zero denominator. -/
noncomputable def pydiv (a b : ℝ) : Except PyError ℝ :=
  if b = 0 then .error .zeroDivisionError else .ok (a / b)

/-- Python `math.sqrt`: raises `ValueError` (math domain error) on negative input. -/
noncomputable def pysqrt (x : ℝ) : Except PyError ℝ :=
  if x < 0 then .error (.valueError "math domain error") else .ok (Real.sqrt x)

/-- The `discount` dict built inside `compute_eoq` when a discount offer
is present and well-formed (`app.py` lines 40-61).  The Python `accept`
boolean is modelled as the proposition it is computed from. -/
structure DiscountResult where
  discount_Q : ℝ
  discount_rate : ℝ
  new_price : ℝ
  ordering_cost_disc : ℝ
  holding_cost_disc : ℝ
  TLC_disc : ℝ
  purchase_disc : ℝ
  total_disc : ℝ
  accept : Prop
  annual_savings : ℝ

/-- The `results` dict returned by `compute_eoq` (`app.py` lines 63-76). -/
structure EOQResult where
  EOQ : ℝ
  h : ℝ
  OrderingCost : ℝ
  HoldingCost : ℝ
  TLC : ℝ
  t_months : ℝ
  t_days : ℝ
  ROP : ℝ
  purchase_base : ℝ
  total_base : ℝ
  discount : Option DiscountResult

/-- The discount branch of `compute_eoq` (`app.py` lines 39-61).  The
Python guard is `discount_enabled and discount_Q and discount_Q > 0 and
0 < discount_rate < 1`; `discount_Q` is truthy when it is neither `None`
nor `0.0`. -/
noncomputable def computeDiscount (D C S h_rate : ℝ) (discount_enabled : Bool)
    (discount_Q : Option ℝ) (discount_rate : ℝ) (total_base : ℝ) :
    Except PyError (Option DiscountResult) :=
  match discount_enabled, discount_Q with
  | true, some q =>
    if q ≠ 0 ∧ 0 < q ∧ 0 < discount_rate ∧ discount_rate < 1 then
      let new_price := C * (1 - discount_rate)
      let h_disc := h_rate * new_price
      (pydiv D q).bind fun dq =>
      (pydiv q 2).bind fun q2 =>
      let ordering_cost_disc := dq * S
      let holding_cost_disc := q2 * h_disc
      let TLC_disc := ordering_cost_disc + holding_cost_disc
      let purchase_disc := D * new_price
      let total_disc := purchase_disc + TLC_disc
      .ok (some
        { discount_Q := q
          discount_rate := discount_rate
          new_price := new_price
          ordering_cost_disc := ordering_cost_disc
          holding_cost_disc := holding_cost_disc
          TLC_disc := TLC_disc
          purchase_disc := purchase_disc
          total_disc := total_disc
          accept := total_disc < total_base
          annual_savings := total_base - total_disc })
    else .ok none
  | _, _ => .ok none

/-- Shallow embedding of `compute_eoq` (`app.py` lines 23-77, identical
copy at `pages/1_Inventory_Toolkit_EOQ.py` lines 30-84).  Each Python
`/` goes through `pydiv` and `math.sqrt` through `pysqrt`; the
`t_months` line models the Python conditional expression
`(Q_star / D) * 12.0 if D else 0.0`. -/
noncomputable def compute_eoq (D C S h_rate lead_time_months : ℝ)
    (discount_enabled : Bool) (discount_Q : Option ℝ) (discount_rate : ℝ) :
    Except PyError EOQResult :=
  if D ≤ 0 ∨ C ≤ 0 ∨ h_rate ≤ 0 then
    .error (.valueError "D, C and h_rate must be positive numbers.")
  else
    let h := h_rate * C
    (pydiv (2 * D * S) h).bind fun ratio =>
    (pysqrt ratio).bind fun Q_star =>
    (pydiv D Q_star).bind fun dq =>
    let ordering_cost := dq * S
    (pydiv Q_star 2).bind fun q2 =>
    let holding_cost := q2 * h
    let TLC := ordering_cost + holding_cost
    (if D ≠ 0 then (pydiv Q_star D).map (fun x => x * 12) else .ok 0).bind fun t_months =>
    let t_days := t_months * 30.4375
    (pydiv D 12).bind fun d12 =>
    let ROP := d12 * lead_time_months
    let base_purchase := D * C
    let total_base := base_purchase + TLC
    (computeDiscount D C S h_rate discount_enabled discount_Q discount_rate total_base).bind
      fun discount =>
    .ok
      { EOQ := Q_star
        h := h
        OrderingCost := ordering_cost
        HoldingCost := holding_cost
        TLC := TLC
        t_months := t_months
        t_days := t_days
        ROP := ROP
        purchase_base := base_purchase
        total_base := total_base
        discount := discount }

/-- The discount-independent fields of an `EOQResult`. -/
structure EOQBase where
  EOQ : ℝ
  h : ℝ
  OrderingCost : ℝ
  HoldingCost : ℝ
  TLC : ℝ
  t_months : ℝ
  t_days : ℝ
  ROP : ℝ
  purchase_base : ℝ
  total_base : ℝ

/-- Projection of an `EOQResult` onto its discount-independent fields. -/
def EOQResult.base (r : EOQResult) : EOQBase :=
  { EOQ := r.EOQ
    h := r.h
    OrderingCost := r.OrderingCost
    HoldingCost := r.HoldingCost
    TLC := r.TLC
    t_months := r.t_months
    t_days := r.t_days
    ROP := r.ROP
    purchase_base := r.purchase_base
    total_base := r.total_base }

/-- Embedding of `_pct_bins_classifier` (`pages/2_Segmentation_Toolkit.py`
lines 15-21). -/
def _pct_bins_classifier (pct a_pct b_pct : ℚ) : String :=
  if pct ≤ a_pct then "A"
  else if pct ≤ a_pct + b_pct then "B"
  else "C"

/-- One step of the ascending insertion used to model the key-ascending
order that `pandas.groupby` (with its default `sort=True`) gives the
aggregated table.  The key type is any linearly ordered type, as in
pandas, which groups on any ordered column dtype. -/
def insertKey {K : Type} [LinearOrder K] (k : K) : List K → List K
  | [] => [k]
  | k' :: ks => if k ≤ k' then k :: k' :: ks else k' :: insertKey k ks

/-- Ascending sort of the group keys, modelling `groupby`'s sorted key
order. -/
def sortKeys {K : Type} [LinearOrder K] (ks : List K) : List K := ks.foldr insertKey []

/-- Sum of the values of all input rows carrying the given key, i.e. the
`sum` aggregation of one group. -/
def sumVals {K : Type} [LinearOrder K] (k : K) (rows : List (K × ℚ)) : ℚ :=
  ((rows.filter (fun r => r.1 = k)).map Prod.snd).sum

/-- Embedding of `df.groupby(key_col, as_index=False)[value_col].sum()`
(`pages/2_Segmentation_Toolkit.py` line 25): one row per distinct key,
rows ordered by ascending key (pandas `groupby` default `sort=True`),
each carrying the sum of the values of its group. -/
def groupbySum {K : Type} [LinearOrder K] (rows : List (K × ℚ)) : List (K × ℚ) :=
  (sortKeys (rows.map Prod.fst).dedup).map (fun k => (k, sumVals k rows))

/-- One step of the stable descending insertion sort used to model
`sort_values(value, ascending=False)`: a row is placed before the first
already-sorted row whose value is `≤` its own, so earlier rows stay
before later rows of equal value. -/
def insertDescBy {α : Type} (f : α → ℚ) (r : α) : List α → List α
  | [] => [r]
  | s :: ss => if f s ≤ f r then r :: s :: ss else s :: insertDescBy f r ss

/-- Embedding of `DataFrame.sort_values(col, ascending=False)` as a
stable descending sort on the value `f` of each row (pandas reverses the
table, argsorts ascending and reverses the indexer again, which preserves
the relative order of equal values whenever the underlying argsort is
stable, as it is for the small tables at issue and for the documented
stable kind). -/
def sortDescBy {α : Type} (f : α → ℚ) (rows : List α) : List α :=
  rows.foldr (insertDescBy f) []

/-- Cumulative percentages: row `i` receives
`100 * (prefix sum through i) / total` when `0 < total`, and `0.0`
otherwise, mirroring
`np.where(total > 0, 100.0 * agg[Value].cumsum() / total, 0.0)`
(`pages/2_Segmentation_Toolkit.py` line 28).  `acc` is the prefix sum of
the rows already passed. -/
def cumPercentsBy {α : Type} (f : α → ℚ) (total acc : ℚ) : List α → List (α × ℚ)
  | [] => []
  | x :: rest =>
    (x, if 0 < total then 100 * (acc + f x) / total else 0) ::
      cumPercentsBy f total (acc + f x) rest

/-- One output row of `abc_on_column`. -/
structure AbcRow (K : Type) where
  key : K
  value : ℚ
  cumulPct : ℚ
  abc : String
deriving DecidableEq, Repr

/-- Embedding of `abc_on_column` (`pages/2_Segmentation_Toolkit.py`
lines 23-30): group by key (keys ascending), sort by summed value
descending, attach cumulative percentages, classify each row with
`_pct_bins_classifier`. -/
def abc_on_column {K : Type} [LinearOrder K] (rows : List (K × ℚ)) (a_pct b_pct : ℚ) :
    List (AbcRow K) :=
  let agg := sortDescBy Prod.snd (groupbySum rows)
  let total := (agg.map Prod.snd).sum
  (cumPercentsBy Prod.snd total 0 agg).map fun e =>
    { key := e.1.1, value := e.1.2, cumulPct := e.2
      abc := _pct_bins_classifier e.2 a_pct b_pct }

/-- One row of the Product-segmentation table.  `cumulPctRev` and
`abcRev` start at the defaults `0.0` and `"C"` that the source assigns
before the within-class loop; `finalClass` is only filled by the last
step. -/
structure ProdRow (K : Type) where
  item : K
  salesQty : ℚ
  revenue : ℚ
  cumulPctSales : ℚ
  abcSales : String
  cumulPctRev : ℚ
  abcRev : String
  finalClass : String
deriving DecidableEq, Repr

/-- Embedding of
`dfp.groupby("Item", as_index=False).agg(SalesQty=sum, Revenue=sum)`:
one row per distinct item (items ascending), with the group sums of
sales quantity and revenue. -/
def groupbySum2 {K : Type} [LinearOrder K] (rows : List (K × ℚ × ℚ)) : List (K × ℚ × ℚ) :=
  (sortKeys (rows.map Prod.fst).dedup).map fun k =>
    (k, (((rows.filter (fun r => r.1 = k)).map (fun r => r.2.1)).sum),
        (((rows.filter (fun r => r.1 = k)).map (fun r => r.2.2)).sum))

/-- Global ABC by sales (`pages/2_Segmentation_Toolkit.py` lines
196-200) plus the defaults `CumulPct_Revenue_withinSales = 0.0`,
`ABC_Revenue_withinSales = "C"` set just before the within-class loop. -/
def salesStage {K : Type} [LinearOrder K] (rows : List (K × ℚ × ℚ)) (a_pct b_pct : ℚ) :
    List (ProdRow K) :=
  let items := sortDescBy (fun r => r.2.1) (groupbySum2 rows)
  let total := (items.map (fun r => r.2.1)).sum
  (cumPercentsBy (fun r => r.2.1) total 0 items).map fun e =>
    { item := e.1.1, salesQty := e.1.2.1, revenue := e.1.2.2
      cumulPctSales := e.2
      abcSales := _pct_bins_classifier e.2 a_pct b_pct
      cumulPctRev := 0
      abcRev := "C"
      finalClass := "" }

/-- Embedding of the within-sales-class revenue ABC loop
(`pages/2_Segmentation_Toolkit.py` lines 203-218).  The source loops
over the classes, sorts each partition by revenue descending, computes
the partition-scoped cumulative percentages when the partition's revenue
total is positive (else assigns `0.0` and `"C"`), and writes the results
back to the main frame row-by-row through the partition's index labels.
The net effect on each row — receiving the values its own partition
computed for it, located by its index — is modelled per row via an
indexed lookup into its own partition's computation. -/
def revAssign {K : Type} (indexed : List (ℕ × ProdRow K)) (a_pct b_pct : ℚ)
    (ir : ℕ × ProdRow K) : ProdRow K :=
  let sub := sortDescBy (fun e => e.2.revenue)
    (indexed.filter (fun e => e.2.abcSales = ir.2.abcSales))
  let tot := (sub.map (fun e => e.2.revenue)).sum
  if 0 < tot ∧ 0 < sub.length then
    match (cumPercentsBy (fun e => e.2.revenue) tot 0 sub).find?
        (fun e => e.1.1 = ir.1) with
    | some e =>
      { ir.2 with cumulPctRev := e.2, abcRev := _pct_bins_classifier e.2 a_pct b_pct }
    | none => ir.2
  else
    { ir.2 with cumulPctRev := 0, abcRev := "C" }

/-- The whole within-class loop: every row of the (indexed) main table
receives its own partition's write-back. -/
def revenueStage {K : Type} (base : List (ProdRow K)) (a_pct b_pct : ℚ) : List (ProdRow K) :=
  base.enum.map (revAssign base.enum a_pct b_pct)

/-- Embedding of
`items["Final_Class"] = items["ABC_Sales"] + "-" + items["ABC_Revenue_withinSales"]`. -/
def finalStage {K : Type} (l : List (ProdRow K)) : List (ProdRow K) :=
  l.map fun r => { r with finalClass := r.abcSales ++ "-" ++ r.abcRev }

/-- The whole nested two-level ABC pipeline of the Product segmentation
(`pages/2_Segmentation_Toolkit.py` lines 187-221). -/
def productSegmentation {K : Type} [LinearOrder K] (rows : List (K × ℚ × ℚ))
    (a_pct b_pct : ℚ) : List (ProdRow K) :=
  finalStage (revenueStage (salesStage rows a_pct b_pct) a_pct b_pct)

/-- Embedding of `_label_row` (`pages/2_Segmentation_Toolkit.py` lines
327-336): threshold the two axes, inclusive on the high side, and pick
one of the four Kraljic labels. -/
def _label_row (profitImpact supplyRisk thr : ℚ) : String :=
  let hi_imp := thr ≤ profitImpact
  let hi_risk := thr ≤ supplyRisk
  if hi_imp ∧ hi_risk then "Strategic"
  else if hi_imp ∧ ¬hi_risk then "Leverage"
  else if ¬hi_imp ∧ hi_risk then "Bottleneck"
  else "Non-Critical"

/-- Embedding of `seg["Segment"] = seg.apply(_label_row, axis=1)`: every
row of the aggregated supplier table receives its quadrant label. -/
def supplierSegments {K : Type} (rows : List (K × ℚ × ℚ)) (thr : ℚ) : List (K × String) :=
  rows.map fun r => (r.1, _label_row r.2.1 r.2.2 thr)


theorem pydiv_ok (a b : ℝ) (hb : b ≠ 0) : pydiv a b = .ok (a / b) := by
  simp [pydiv, hb]

theorem pysqrt_ok (x : ℝ) (hx : 0 ≤ x) : pysqrt x = .ok (Real.sqrt x) := by
  simp [pysqrt, not_lt.mpr hx]

theorem classifier_mem (pct a_pct b_pct : ℚ) :
    _pct_bins_classifier pct a_pct b_pct ∈ (["A", "B", "C"] : List String) := by
  unfold _pct_bins_classifier
  split_ifs <;> simp

/-- Claim C5: the ABC class of a classified row is "A" when its
cumulative percentage is at most `a_pct` (boundary inclusive on the lower
tier), "B" when it is at most `a_pct + b_pct`, and "C" otherwise; every
row of `abc_on_column` is classified from its own cumulative percentage
by this rule; and the end-to-end example with values
`[100, 80, 60, 40, 20]` and cutoffs `A = 70`, `B = 20` yields cumulative
percentages `[100/3, 60, 80, 280/3, 100]` and classes
`[A, A, B, C, C]`. -/
theorem abc_class_boundaries :
    (∀ pct a_pct b_pct : ℚ,
      (_pct_bins_classifier pct a_pct b_pct = "A" ↔ pct ≤ a_pct) ∧
      (_pct_bins_classifier pct a_pct b_pct = "B" ↔ a_pct < pct ∧ pct ≤ a_pct + b_pct) ∧
      (_pct_bins_classifier pct a_pct b_pct = "C" ↔ a_pct < pct ∧ a_pct + b_pct < pct)) ∧
    (∀ rows : List (ℕ × ℚ), ∀ a_pct b_pct : ℚ, ∀ r ∈ abc_on_column rows a_pct b_pct,
      r.abc = _pct_bins_classifier r.cumulPct a_pct b_pct) ∧
    abc_on_column [((1:ℕ), (100:ℚ)), (2, 80), (3, 60), (4, 40), (5, 20)] 70 20 =
      [⟨1, 100, 100/3, "A"⟩, ⟨2, 80, 60, "A"⟩, ⟨3, 60, 80, "B"⟩,
       ⟨4, 40, 280/3, "C"⟩, ⟨5, 20, 100, "C"⟩] := by
  refine ⟨fun pct a_pct b_pct => ?_, fun rows a_pct b_pct r hr => ?_, ?_⟩
  · unfold _pct_bins_classifier
    split_ifs with h1 h2
    · simp [h1, not_lt.mpr h1]
    · simp [h1, h2, not_le.mp h1, not_lt.mpr h2]
    · simp [h1, h2, not_le.mp h1, not_le.mp h2]
  · simp only [abc_on_column, List.mem_map] at hr
    obtain ⟨e, _, rfl⟩ := hr
    rfl
  · norm_num [abc_on_column, groupbySum, sortKeys, insertKey, sumVals, sortDescBy,
      insertDescBy, cumPercentsBy, _pct_bins_classifier, List.dedup_cons_of_not_mem,
      List.dedup_cons_of_mem, List.filter]

/-- Witness for `abc_class_boundaries` at concrete inputs: a cumulative
percentage exactly on the A-cutoff classifies as "A", one just above the
A-cutoff but on the B-boundary classifies as "B". -/
theorem abc_class_boundaries_witness :
    _pct_bins_classifier 70 70 20 = "A" ∧ _pct_bins_classifier 90 70 20 = "B" := by
  refine ⟨((abc_class_boundaries.1 70 70 20).1).mpr (by norm_num),
    ((abc_class_boundaries.1 90 70 20).2.1).mpr (by norm_num)⟩

/-- Claim C9: the quadrant classifier evaluates both thresholds inclusive
on the high side and assigns exactly one of the four labels to each row,
so no row is left unclassified. -/
theorem label_row_quadrants :
    (∀ x y thr : ℚ,
      (_label_row x y thr = "Strategic" ↔ thr ≤ x ∧ thr ≤ y) ∧
      (_label_row x y thr = "Leverage" ↔ thr ≤ x ∧ y < thr) ∧
      (_label_row x y thr = "Bottleneck" ↔ x < thr ∧ thr ≤ y) ∧
      (_label_row x y thr = "Non-Critical" ↔ x < thr ∧ y < thr) ∧
      _label_row x y thr ∈
        (["Strategic", "Leverage", "Bottleneck", "Non-Critical"] : List String)) ∧
    (∀ rows : List (ℕ × ℚ × ℚ), ∀ thr : ℚ,
      (supplierSegments rows thr).length = rows.length ∧
      ∀ e ∈ supplierSegments rows thr,
        e.2 ∈ (["Strategic", "Leverage", "Bottleneck", "Non-Critical"] : List String)) := by
  constructor
  · intro x y thr
    simp only [_label_row]
    split_ifs with h1 h2 h3
    · simp [h1.1, h1.2, not_lt.mpr h1.1, not_lt.mpr h1.2]
    · simp [h2.1, h2.2, not_le.mp h2.2, not_lt.mpr h2.1]
    · simp [h3.1, h3.2, not_le.mp h3.1, not_lt.mpr h3.2]
    · have hx : ¬ thr ≤ x := fun hx => h2 ⟨hx, fun hy => h1 ⟨hx, hy⟩⟩
      have hy : ¬ thr ≤ y := fun hy => h3 ⟨hx, hy⟩
      simp [hx, hy, not_le.mp hx, not_le.mp hy]
  · intro rows thr
    refine ⟨by simp [supplierSegments], fun e he => ?_⟩
    simp only [supplierSegments, List.mem_map] at he
    obtain ⟨r, _, rfl⟩ := he
    simp only [_label_row]
    split_ifs <;> simp

/-- Witness for `label_row_quadrants` at concrete inputs: the four
quadrants of the supplier example at threshold 50, all boundary-inclusive
on the high side. -/
theorem label_row_quadrants_witness :
    _label_row 50 50 50 = "Strategic" ∧ _label_row 50 10 50 = "Leverage" ∧
    _label_row 10 50 50 = "Bottleneck" ∧ _label_row 10 10 50 = "Non-Critical" := by
  refine ⟨((label_row_quadrants.1 50 50 50).1).mpr (by norm_num),
    ((label_row_quadrants.1 50 10 50).2.1).mpr (by norm_num),
    ((label_row_quadrants.1 10 50 50).2.2.1).mpr (by norm_num),
    ((label_row_quadrants.1 10 10 50).2.2.2.1).mpr (by norm_num)⟩

/-- Counterexample to claim C3: on an input whose values are all zero the
single-criterion classifier does NOT classify every row as "C" — the
cumulative percentages are all `0`, and `0 ≤ aCutoff` makes
`_pct_bins_classifier` return the TOP tier "A" for every row. -/
theorem abc_zero_total_not_all_C :
    ¬ (∀ r ∈ abc_on_column [((1:ℕ), (0:ℚ)), (2, 0)] 70 20, r.abc = "C") := by
  have hac : ("A":String) ≠ "C" := by decide
  norm_num [abc_on_column, groupbySum, sortKeys, insertKey, sumVals, sortDescBy,
    insertDescBy, cumPercentsBy, _pct_bins_classifier, List.dedup_cons_of_not_mem,
    List.dedup_cons_of_mem, List.filter, hac]

/-- Counterexample to claim C6: ties are NOT broken by original input
order.  The input has two rows of equal value with keys in the order
`2, 1`; `groupby` orders the aggregated table by ascending key, and the
descending value sort keeps that order for the tied rows, so the output
order is `1, 2` — not the input order `2, 1`. -/
theorem abc_tie_not_input_order :
    (abc_on_column [((2:ℕ), (5:ℚ)), (1, 5)] 70 20).map (fun r => r.key) = [1, 2] ∧
    ([1, 2] : List ℕ) ≠ [2, 1] := by
  constructor
  · norm_num [abc_on_column, groupbySum, sortKeys, insertKey, sumVals, sortDescBy,
      insertDescBy, cumPercentsBy, _pct_bins_classifier, List.dedup_cons_of_not_mem,
      List.dedup_cons_of_mem, List.filter]
  · decide

theorem computeDiscount_none (D C S h_rate dr tb : ℝ) :
    computeDiscount D C S h_rate false none dr tb = .ok none := rfl

/-- Claim C1: for positive demand, unit cost, holding rate and ordering
cost, `compute_eoq` succeeds and returns exactly the spec formulas:
`h = h_rate*C`, `EOQ = sqrt((2*D*S)/h)`, `OrderingCost = (D/EOQ)*S`,
`HoldingCost = (EOQ/2)*h`, `TLC` their sum,
`t_months = (EOQ/D)*12`, `t_days = t_months*30.4375`,
`ROP = (D/12)*lead_time_months`, `purchase_base = D*C` and
`total_base = D*C + TLC`, with no discount record. -/
theorem eoq_base_formulas (D C S h_rate lead_time_months : ℝ)
    (hD : 0 < D) (hC : 0 < C) (hh : 0 < h_rate) (hS : 0 < S) :
    compute_eoq D C S h_rate lead_time_months false none 0 =
      .ok { EOQ := Real.sqrt ((2 * D * S) / (h_rate * C))
            h := h_rate * C
            OrderingCost := D / Real.sqrt ((2 * D * S) / (h_rate * C)) * S
            HoldingCost := Real.sqrt ((2 * D * S) / (h_rate * C)) / 2 * (h_rate * C)
            TLC := D / Real.sqrt ((2 * D * S) / (h_rate * C)) * S +
              Real.sqrt ((2 * D * S) / (h_rate * C)) / 2 * (h_rate * C)
            t_months := Real.sqrt ((2 * D * S) / (h_rate * C)) / D * 12
            t_days := Real.sqrt ((2 * D * S) / (h_rate * C)) / D * 12 * 30.4375
            ROP := D / 12 * lead_time_months
            purchase_base := D * C
            total_base := D * C + (D / Real.sqrt ((2 * D * S) / (h_rate * C)) * S +
              Real.sqrt ((2 * D * S) / (h_rate * C)) / 2 * (h_rate * C))
            discount := none } := by
  have hguard : ¬ (D ≤ 0 ∨ C ≤ 0 ∨ h_rate ≤ 0) := by push_neg; exact ⟨hD, hC, hh⟩
  have hhc : h_rate * C ≠ 0 := ne_of_gt (mul_pos hh hC)
  have harg : 0 ≤ (2 * D * S) / (h_rate * C) := by positivity
  have hQ : Real.sqrt ((2 * D * S) / (h_rate * C)) ≠ 0 :=
    ne_of_gt (Real.sqrt_pos.mpr (by positivity))
  have hD' : D ≠ 0 := ne_of_gt hD
  simp only [compute_eoq, if_neg hguard, pydiv_ok _ _ hhc, pysqrt_ok _ harg,
    pydiv_ok _ _ hQ, pydiv_ok _ _ (by norm_num : (2:ℝ) ≠ 0), if_pos hD', pydiv_ok _ _ hD',
    pydiv_ok _ _ (by norm_num : (12:ℝ) ≠ 0), computeDiscount_none, Except.bind, Except.map]

/-- Witness for `eoq_base_formulas` at the spec example
`D=6000, C=1500, S=4000, h_rate=0.10, lead=2`: holding cost per unit
150, optimal quantity `sqrt 320000 = 565.68...`, ordering cost per year
equal to holding cost per year (both between 42426 and 42427, i.e.
about 42426.4), total logistics cost about 84852.8, reorder point 1000,
and total base cost `D*C + TLC`. -/
theorem eoq_base_formulas_witness :
    ∃ r : EOQResult, compute_eoq 6000 1500 4000 0.10 2 false none 0 = .ok r ∧
      r.h = 150 ∧ r.EOQ = Real.sqrt 320000 ∧ r.ROP = 1000 ∧
      r.OrderingCost = r.HoldingCost ∧
      r.TLC = r.OrderingCost + r.HoldingCost ∧
      42426 < r.OrderingCost ∧ r.OrderingCost < 42427 ∧
      84852 < r.TLC ∧ r.TLC < 84854 ∧
      r.total_base = 6000 * 1500 + r.TLC := by
  have h := eoq_base_formulas 6000 1500 4000 0.10 2 (by norm_num) (by norm_num)
    (by norm_num) (by norm_num)
  have hs : ((2 * (6000:ℝ) * 4000) / (0.10 * 1500)) = 320000 := by norm_num
  rw [hs] at h
  have hsq : Real.sqrt (320000:ℝ) ^ 2 = 320000 := Real.sq_sqrt (by norm_num)
  have hspos : 0 < Real.sqrt (320000:ℝ) := Real.sqrt_pos.mpr (by norm_num)
  have hne : Real.sqrt (320000:ℝ) ≠ 0 := ne_of_gt hspos
  have hlo : (565.68:ℝ) < Real.sqrt 320000 := (Real.lt_sqrt (by norm_num)).mpr (by norm_num)
  have hhi : Real.sqrt (320000:ℝ) < 565.69 := (Real.sqrt_lt' (by norm_num)).mpr (by norm_num)
  have hOrd : (6000:ℝ) / Real.sqrt 320000 * 4000 = 75 * Real.sqrt 320000 := by
    field_simp
    nlinarith [hsq]
  have hHold : Real.sqrt (320000:ℝ) / 2 * (0.10 * 1500) = 75 * Real.sqrt 320000 := by
    norm_num
    ring
  refine ⟨_, h, by norm_num, rfl, by norm_num, ?_, rfl, ?_, ?_, ?_, ?_, rfl⟩
  · show (6000:ℝ) / Real.sqrt 320000 * 4000 = Real.sqrt 320000 / 2 * (0.10 * 1500)
    rw [hOrd, hHold]
  · show (42426:ℝ) < 6000 / Real.sqrt 320000 * 4000
    rw [hOrd]; linarith
  · show (6000:ℝ) / Real.sqrt 320000 * 4000 < 42427
    rw [hOrd]; linarith
  · show (84852:ℝ) < 6000 / Real.sqrt 320000 * 4000 + Real.sqrt 320000 / 2 * (0.10 * 1500)
    rw [hOrd, hHold]; linarith
  · show (6000:ℝ) / Real.sqrt 320000 * 4000 + Real.sqrt 320000 / 2 * (0.10 * 1500) < 84854
    rw [hOrd, hHold]; linarith

/-- Claim C4 (code behaviour at the failing input): with
`orderingCost = 0` and all preconditions satisfied, `compute_eoq` does
NOT succeed with `optimalQuantity = 0`; `Q_star` evaluates to `0` and the
next line `(D / Q_star) * S` raises `ZeroDivisionError`, so the whole
call fails.  The spec requires a division-by-zero guard here; the code
has none. -/
theorem eoq_zero_ordering_cost_zero_division :
    compute_eoq 6000 1500 0 0.10 2 false none 0 = .error .zeroDivisionError := by
  have hguard : ¬ ((6000:ℝ) ≤ 0 ∨ (1500:ℝ) ≤ 0 ∨ (0.10:ℝ) ≤ 0) := by norm_num
  have hhc : (0.10:ℝ) * 1500 ≠ 0 := by norm_num
  have harg : ((2 * (6000:ℝ) * 0) / (0.10 * 1500)) = 0 := by norm_num
  have hz : pydiv (6000:ℝ) (Real.sqrt 0) = .error .zeroDivisionError := by
    simp [pydiv, Real.sqrt_zero]
  simp only [compute_eoq, if_neg hguard, pydiv_ok _ _ hhc, harg, pysqrt_ok _ le_rfl,
    Except.bind, hz]

/-- Claim C7 (code behaviour at the failing input): the input
`D=1, C=1, S=0, h_rate=1/2` satisfies every stated precondition
(`annualDemand > 0`, `unitCost > 0`, `holdingRateFraction > 0`), yet
`compute_eoq` returns no complete result: it raises `ZeroDivisionError`
rather than an `InvalidParameterError`, contradicting the claim that
every precondition-satisfying input yields a complete result. -/
theorem eoq_preconds_not_sufficient :
    (0:ℝ) < 1 ∧ (0:ℝ) < 1 ∧ (0:ℝ) < 1/2 ∧
    compute_eoq 1 1 0 (1/2) 0 false none 0 = .error .zeroDivisionError := by
  refine ⟨by norm_num, by norm_num, by norm_num, ?_⟩
  have hguard : ¬ ((1:ℝ) ≤ 0 ∨ (1:ℝ) ≤ 0 ∨ (1/2:ℝ) ≤ 0) := by norm_num
  have hhc : (1/2:ℝ) * 1 ≠ 0 := by norm_num
  have harg : ((2 * (1:ℝ) * 0) / (1/2 * 1)) = 0 := by norm_num
  have hz : pydiv (1:ℝ) (Real.sqrt 0) = .error .zeroDivisionError := by
    simp [pydiv, Real.sqrt_zero]
  simp only [compute_eoq, if_neg hguard, pydiv_ok _ _ hhc, harg, pysqrt_ok _ le_rfl,
    Except.bind, hz]

theorem computeDiscount_some (D C S h_rate Qd r tb : ℝ)
    (hQd : 0 < Qd) (hr0 : 0 < r) (hr1 : r < 1) :
    computeDiscount D C S h_rate true (some Qd) r tb =
      .ok (some
        { discount_Q := Qd
          discount_rate := r
          new_price := C * (1 - r)
          ordering_cost_disc := D / Qd * S
          holding_cost_disc := Qd / 2 * (h_rate * (C * (1 - r)))
          TLC_disc := D / Qd * S + Qd / 2 * (h_rate * (C * (1 - r)))
          purchase_disc := D * (C * (1 - r))
          total_disc := D * (C * (1 - r)) + (D / Qd * S + Qd / 2 * (h_rate * (C * (1 - r))))
          accept := D * (C * (1 - r)) + (D / Qd * S + Qd / 2 * (h_rate * (C * (1 - r)))) < tb
          annual_savings :=
            tb - (D * (C * (1 - r)) + (D / Qd * S + Qd / 2 * (h_rate * (C * (1 - r))))) }) := by
  have hcond : Qd ≠ 0 ∧ 0 < Qd ∧ 0 < r ∧ r < 1 := ⟨ne_of_gt hQd, hQd, hr0, hr1⟩
  simp only [computeDiscount, if_pos hcond, pydiv_ok _ _ (ne_of_gt hQd),
    pydiv_ok _ _ (by norm_num : (2:ℝ) ≠ 0), Except.bind]

/-- Claim C2: with a well-formed discount offer (`0 < Qd`,
`0 < r < 1`), `compute_eoq` evaluates the discounted scenario at the
fixed order quantity `Qd`: discounted unit price `C*(1-r)`, ordering
cost `(D/Qd)*S`, holding cost `(Qd/2)*(h_rate*C*(1-r))`, discounted
total annual cost `D*C*(1-r) + ordering + holding`, `accept` holding iff
the discounted total is strictly below the base total (so a tie is
rejected), and `annual_savings = total_base - total_disc` (which may be
negative). -/
theorem eoq_discount_evaluation (D C S h_rate lead_time_months Qd r : ℝ)
    (hD : 0 < D) (hC : 0 < C) (hh : 0 < h_rate) (hS : 0 < S)
    (hQd : 0 < Qd) (hr0 : 0 < r) (hr1 : r < 1) :
    ∃ res : EOQResult, ∃ d : DiscountResult,
      compute_eoq D C S h_rate lead_time_months true (some Qd) r = .ok res ∧
      res.discount = some d ∧
      d.new_price = C * (1 - r) ∧
      d.ordering_cost_disc = D / Qd * S ∧
      d.holding_cost_disc = Qd / 2 * (h_rate * C * (1 - r)) ∧
      d.TLC_disc = d.ordering_cost_disc + d.holding_cost_disc ∧
      d.purchase_disc = D * C * (1 - r) ∧
      d.total_disc = d.purchase_disc + d.TLC_disc ∧
      (d.accept ↔ d.total_disc < res.total_base) ∧
      d.annual_savings = res.total_base - d.total_disc := by
  have hguard : ¬ (D ≤ 0 ∨ C ≤ 0 ∨ h_rate ≤ 0) := by push_neg; exact ⟨hD, hC, hh⟩
  have hhc : h_rate * C ≠ 0 := ne_of_gt (mul_pos hh hC)
  have harg : 0 ≤ (2 * D * S) / (h_rate * C) := by positivity
  have hQ : Real.sqrt ((2 * D * S) / (h_rate * C)) ≠ 0 :=
    ne_of_gt (Real.sqrt_pos.mpr (by positivity))
  have hD' : D ≠ 0 := ne_of_gt hD
  have hmain : compute_eoq D C S h_rate lead_time_months true (some Qd) r =
      .ok { EOQ := Real.sqrt ((2 * D * S) / (h_rate * C))
            h := h_rate * C
            OrderingCost := D / Real.sqrt ((2 * D * S) / (h_rate * C)) * S
            HoldingCost := Real.sqrt ((2 * D * S) / (h_rate * C)) / 2 * (h_rate * C)
            TLC := D / Real.sqrt ((2 * D * S) / (h_rate * C)) * S +
              Real.sqrt ((2 * D * S) / (h_rate * C)) / 2 * (h_rate * C)
            t_months := Real.sqrt ((2 * D * S) / (h_rate * C)) / D * 12
            t_days := Real.sqrt ((2 * D * S) / (h_rate * C)) / D * 12 * 30.4375
            ROP := D / 12 * lead_time_months
            purchase_base := D * C
            total_base := D * C + (D / Real.sqrt ((2 * D * S) / (h_rate * C)) * S +
              Real.sqrt ((2 * D * S) / (h_rate * C)) / 2 * (h_rate * C))
            discount := some
              { discount_Q := Qd
                discount_rate := r
                new_price := C * (1 - r)
                ordering_cost_disc := D / Qd * S
                holding_cost_disc := Qd / 2 * (h_rate * (C * (1 - r)))
                TLC_disc := D / Qd * S + Qd / 2 * (h_rate * (C * (1 - r)))
                purchase_disc := D * (C * (1 - r))
                total_disc := D * (C * (1 - r)) +
                  (D / Qd * S + Qd / 2 * (h_rate * (C * (1 - r))))
                accept := D * (C * (1 - r)) +
                    (D / Qd * S + Qd / 2 * (h_rate * (C * (1 - r)))) <
                  D * C + (D / Real.sqrt ((2 * D * S) / (h_rate * C)) * S +
                    Real.sqrt ((2 * D * S) / (h_rate * C)) / 2 * (h_rate * C))
                annual_savings := D * C + (D / Real.sqrt ((2 * D * S) / (h_rate * C)) * S +
                    Real.sqrt ((2 * D * S) / (h_rate * C)) / 2 * (h_rate * C)) -
                  (D * (C * (1 - r)) +
                    (D / Qd * S + Qd / 2 * (h_rate * (C * (1 - r))))) } } := by
    simp only [compute_eoq, if_neg hguard, pydiv_ok _ _ hhc, pysqrt_ok _ harg,
      pydiv_ok _ _ hQ, pydiv_ok _ _ (by norm_num : (2:ℝ) ≠ 0), if_pos hD', pydiv_ok _ _ hD',
      pydiv_ok _ _ (by norm_num : (12:ℝ) ≠ 0),
      computeDiscount_some D C S h_rate Qd r _ hQd hr0 hr1, Except.bind, Except.map]
  exact ⟨_, _, hmain, rfl, rfl, rfl, by ring, rfl, by ring, rfl, Iff.rfl, rfl⟩

/-- Witness for `eoq_discount_evaluation` at the Coffee Co preset
(`D=6000, C=1500, S=4000, h_rate=0.10, Qd=500, r=0.10`). -/
theorem eoq_discount_evaluation_witness :
    ∃ res : EOQResult, ∃ d : DiscountResult,
      compute_eoq 6000 1500 4000 0.10 2 true (some 500) 0.10 = .ok res ∧
      res.discount = some d ∧
      d.new_price = 1500 * (1 - 0.10) ∧
      d.ordering_cost_disc = 6000 / 500 * 4000 ∧
      d.holding_cost_disc = 500 / 2 * (0.10 * 1500 * (1 - 0.10)) ∧
      d.TLC_disc = d.ordering_cost_disc + d.holding_cost_disc ∧
      d.purchase_disc = 6000 * 1500 * (1 - 0.10) ∧
      d.total_disc = d.purchase_disc + d.TLC_disc ∧
      (d.accept ↔ d.total_disc < res.total_base) ∧
      d.annual_savings = res.total_base - d.total_disc :=
  eoq_discount_evaluation 6000 1500 4000 0.10 2 500 0.10 (by norm_num) (by norm_num)
    (by norm_num) (by norm_num) (by norm_num) (by norm_num) (by norm_num)

theorem computeDiscount_ok (D C S h_rate : ℝ) (de : Bool) (dq : Option ℝ) (dr tb : ℝ) :
    ∃ o, computeDiscount D C S h_rate de dq dr tb = .ok o := by
  match de, dq with
  | false, _ => exact ⟨none, rfl⟩
  | true, none => exact ⟨none, rfl⟩
  | true, some q =>
    by_cases hq : q ≠ 0 ∧ 0 < q ∧ 0 < dr ∧ dr < 1
    · exact ⟨_, computeDiscount_some D C S h_rate q dr tb hq.2.1 hq.2.2.1 hq.2.2.2⟩
    · exact ⟨none, by simp only [computeDiscount, if_neg hq]⟩

/-- Claim C10: under the EOQ preconditions the discount-independent
fields of the result (`EOQ`, `h`, `OrderingCost`, `HoldingCost`, `TLC`,
`t_months`, `t_days`, `ROP`, `purchase_base`, `total_base`) do not
depend on the discount parameters: any two calls differing only in
`discount_enabled`, `discount_Q`, `discount_rate` agree after projecting
away the `discount` sub-record (including agreeing on which error is
raised, if any). -/
theorem eoq_base_frame (D C S h_rate L : ℝ) (d1 d2 : Bool) (q1 q2 : Option ℝ) (r1 r2 : ℝ)
    (hD : 0 < D) (hC : 0 < C) (hh : 0 < h_rate) :
    (compute_eoq D C S h_rate L d1 q1 r1).map EOQResult.base =
    (compute_eoq D C S h_rate L d2 q2 r2).map EOQResult.base := by
  have hguard : ¬ (D ≤ 0 ∨ C ≤ 0 ∨ h_rate ≤ 0) := by push_neg; exact ⟨hD, hC, hh⟩
  have hhc : h_rate * C ≠ 0 := ne_of_gt (mul_pos hh hC)
  have hD' : D ≠ 0 := ne_of_gt hD
  rcases lt_trichotomy S 0 with hS | hS | hS
  · have harg : (2 * D * S) / (h_rate * C) < 0 :=
      div_neg_of_neg_of_pos (mul_neg_of_pos_of_neg (by positivity) hS) (mul_pos hh hC)
    simp only [compute_eoq, if_neg hguard, pydiv_ok _ _ hhc, pysqrt, if_pos harg,
      Except.bind, Except.map]
  · subst hS
    have harg : ((2 * D * 0) / (h_rate * C)) = 0 := by simp
    have hz : pydiv D (Real.sqrt 0) = .error .zeroDivisionError := by
      simp [pydiv, Real.sqrt_zero]
    simp only [compute_eoq, if_neg hguard, pydiv_ok _ _ hhc, harg, pysqrt_ok _ le_rfl,
      Except.bind, Except.map, hz]
  · have harg : 0 ≤ (2 * D * S) / (h_rate * C) := by positivity
    have hQ : Real.sqrt ((2 * D * S) / (h_rate * C)) ≠ 0 :=
      ne_of_gt (Real.sqrt_pos.mpr (by positivity))
    obtain ⟨o1, ho1⟩ := computeDiscount_ok D C S h_rate d1 q1 r1
      (D * C + (D / Real.sqrt ((2 * D * S) / (h_rate * C)) * S +
        Real.sqrt ((2 * D * S) / (h_rate * C)) / 2 * (h_rate * C)))
    obtain ⟨o2, ho2⟩ := computeDiscount_ok D C S h_rate d2 q2 r2
      (D * C + (D / Real.sqrt ((2 * D * S) / (h_rate * C)) * S +
        Real.sqrt ((2 * D * S) / (h_rate * C)) / 2 * (h_rate * C)))
    simp only [compute_eoq, if_neg hguard, pydiv_ok _ _ hhc, pysqrt_ok _ harg,
      pydiv_ok _ _ hQ, pydiv_ok _ _ (by norm_num : (2:ℝ) ≠ 0), if_pos hD', pydiv_ok _ _ hD',
      pydiv_ok _ _ (by norm_num : (12:ℝ) ≠ 0), ho1, ho2, Except.bind, Except.map,
      EOQResult.base]

/-- Witness for `eoq_base_frame`: the Coffee Co preset with and without
its discount offer produces identical base metrics. -/
theorem eoq_base_frame_witness :
    (compute_eoq 6000 1500 4000 0.10 2 true (some 500) 0.10).map EOQResult.base =
    (compute_eoq 6000 1500 4000 0.10 2 false none 0).map EOQResult.base :=
  eoq_base_frame 6000 1500 4000 0.10 2 true false (some 500) none 0.10 0
    (by norm_num) (by norm_num) (by norm_num)

theorem insertDescBy_perm {α : Type} (f : α → ℚ) (x : α) (l : List α) :
    List.Perm (insertDescBy f x l) (x :: l) := by
  induction l with
  | nil => exact List.Perm.refl _
  | cons s ss ih =>
    unfold insertDescBy
    split_ifs with h
    · exact List.Perm.refl _
    · exact (List.Perm.cons s ih).trans (List.Perm.swap x s ss)

theorem sortDescBy_perm {α : Type} (f : α → ℚ) (l : List α) :
    List.Perm (sortDescBy f l) l := by
  induction l with
  | nil => exact List.Perm.refl _
  | cons x xs ih =>
    exact (insertDescBy_perm f x (sortDescBy f xs)).trans (List.Perm.cons x ih)

theorem mem_insertDescBy {α : Type} (f : α → ℚ) (x y : α) (l : List α) :
    y ∈ insertDescBy f x l ↔ y = x ∨ y ∈ l := by
  rw [(insertDescBy_perm f x l).mem_iff, List.mem_cons]

theorem insertKey_perm {K : Type} [LinearOrder K] (k : K) (l : List K) :
    List.Perm (insertKey k l) (k :: l) := by
  induction l with
  | nil => exact List.Perm.refl _
  | cons s ss ih =>
    unfold insertKey
    split_ifs with h
    · exact List.Perm.refl _
    · exact (List.Perm.cons s ih).trans (List.Perm.swap k s ss)

theorem sortKeys_perm {K : Type} [LinearOrder K] (l : List K) :
    List.Perm (sortKeys l) l := by
  induction l with
  | nil => exact List.Perm.refl _
  | cons x xs ih =>
    exact (insertKey_perm x (sortKeys xs)).trans (List.Perm.cons x ih)

theorem insertKey_sorted {K : Type} [LinearOrder K] (k : K) (l : List K)
    (hl : l.Pairwise (· ≤ ·)) : (insertKey k l).Pairwise (· ≤ ·) := by
  induction l with
  | nil => simp [insertKey]
  | cons s ss ih =>
    rw [List.pairwise_cons] at hl
    unfold insertKey
    split_ifs with h
    · refine List.Pairwise.cons ?_ (List.pairwise_cons.mpr hl)
      intro y hy
      rcases List.mem_cons.mp hy with rfl | hy'
      · exact h
      · exact le_trans h (hl.1 y hy')
    · refine List.Pairwise.cons ?_ (ih hl.2)
      intro y hy
      rcases List.mem_cons.mp ((insertKey_perm k ss).mem_iff.mp hy) with rfl | hy'
      · exact le_of_lt (not_le.mp h)
      · exact hl.1 y hy'

theorem sortKeys_sorted {K : Type} [LinearOrder K] (l : List K) :
    (sortKeys l).Pairwise (· ≤ ·) := by
  induction l with
  | nil => simp [sortKeys]
  | cons x xs ih => exact insertKey_sorted x _ ih

theorem insertDescBy_stable {α : Type} (f : α → ℚ) (P : α → α → Prop) (x : α) (l : List α)
    (hl : l.Pairwise (fun a b => f b ≤ f a ∧ (f a = f b → P a b)))
    (hx : ∀ y ∈ l, P x y) :
    (insertDescBy f x l).Pairwise (fun a b => f b ≤ f a ∧ (f a = f b → P a b)) := by
  induction l with
  | nil => simp [insertDescBy]
  | cons s ss ih =>
    rw [List.pairwise_cons] at hl
    unfold insertDescBy
    split_ifs with h
    · refine List.Pairwise.cons ?_ (List.pairwise_cons.mpr hl)
      intro y hy
      rcases List.mem_cons.mp hy with rfl | hy'
      · exact ⟨h, fun _ => hx _ (List.mem_cons_self _ _)⟩
      · exact ⟨le_trans (hl.1 y hy').1 h, fun _ => hx y (List.mem_cons_of_mem s hy')⟩
    · have hxss : ∀ y ∈ ss, P x y := fun y hy => hx y (List.mem_cons_of_mem s hy)
      refine List.Pairwise.cons ?_ (ih hl.2 hxss)
      intro y hy
      rcases (mem_insertDescBy f x y ss).mp hy with rfl | hy'
      · have hfx : f y < f s := not_le.mp h
        exact ⟨le_of_lt hfx, fun heq => absurd hfx (by rw [heq]; exact lt_irrefl _)⟩
      · exact hl.1 y hy'

theorem sortDescBy_stable {α : Type} (f : α → ℚ) (P : α → α → Prop) (l : List α)
    (hl : l.Pairwise P) :
    (sortDescBy f l).Pairwise (fun a b => f b ≤ f a ∧ (f a = f b → P a b)) := by
  induction l with
  | nil => simp [sortDescBy]
  | cons x xs ih =>
    rw [List.pairwise_cons] at hl
    have hx : ∀ y ∈ sortDescBy f xs, P x y := fun y hy =>
      hl.1 y ((sortDescBy_perm f xs).mem_iff.mp hy)
    exact insertDescBy_stable f P x _ (ih hl.2) hx

theorem cumPercentsBy_map_fst {α : Type} (f : α → ℚ) (total : ℚ) (acc : ℚ) (l : List α) :
    (cumPercentsBy f total acc l).map Prod.fst = l := by
  induction l generalizing acc with
  | nil => rfl
  | cons x xs ih => simp [cumPercentsBy, ih]

theorem cumPercentsBy_zero {α : Type} (f : α → ℚ) (total : ℚ) (hns : ¬ 0 < total)
    (acc : ℚ) (l : List α) : ∀ e ∈ cumPercentsBy f total acc l, e.2 = 0 := by
  induction l generalizing acc with
  | nil => intro e he; simp [cumPercentsBy] at he
  | cons x xs ih =>
    intro e he
    simp only [cumPercentsBy] at he
    rcases List.mem_cons.mp he with rfl | he'
    · simp [hns]
    · exact ih _ e he'

theorem sum_map_ite_single {K : Type} [DecidableEq K] (c : ℚ) (x : K) :
    ∀ (Ks : List K), Ks.Nodup → x ∈ Ks →
      (Ks.map fun k => if x = k then c else 0).sum = c := by
  intro Ks
  induction Ks with
  | nil => intro _ hx; simp at hx
  | cons a as ih =>
    intro hnd hx
    rcases List.mem_cons.mp hx with rfl | hx'
    · rw [List.map_cons, List.sum_cons, if_pos rfl, List.sum_eq_zero, add_zero]
      intro y hy
      obtain ⟨k, hk, rfl⟩ := List.mem_map.mp hy
      have hne : x ≠ k := fun h => (List.nodup_cons.mp hnd).1 (h ▸ hk)
      simp [hne]
    · have hax : x ≠ a := fun h => (List.nodup_cons.mp hnd).1 (h ▸ hx')
      rw [List.map_cons, List.sum_cons, if_neg hax, zero_add]
      exact ih (List.nodup_cons.mp hnd).2 hx'

theorem sumVals_cons {K : Type} [LinearOrder K] (k : K) (p : K × ℚ) (rest : List (K × ℚ)) :
    sumVals k (p :: rest) = (if p.1 = k then p.2 else 0) + sumVals k rest := by
  by_cases h : p.1 = k <;> simp [sumVals, List.filter_cons, h]

theorem sum_sumVals {K : Type} [LinearOrder K] (rows : List (K × ℚ)) (Ks : List K)
    (hnd : Ks.Nodup) (hmem : ∀ p ∈ rows, p.1 ∈ Ks) :
    (Ks.map fun k => sumVals k rows).sum = (rows.map Prod.snd).sum := by
  induction rows with
  | nil => simp [sumVals]
  | cons p rest ih =>
    have hrest : ∀ q ∈ rest, q.1 ∈ Ks := fun q hq => hmem q (List.mem_cons_of_mem p hq)
    have hp : p.1 ∈ Ks := hmem p (List.mem_cons_self p rest)
    calc (Ks.map fun k => sumVals k (p :: rest)).sum
        = (Ks.map fun k => (if p.1 = k then p.2 else 0) + sumVals k rest).sum := by
          simp only [sumVals_cons]
      _ = (Ks.map fun k => if p.1 = k then p.2 else 0).sum +
            (Ks.map fun k => sumVals k rest).sum := by
          rw [List.sum_map_add]
      _ = p.2 + (rest.map Prod.snd).sum := by
          rw [sum_map_ite_single p.2 p.1 Ks hnd hp, ih hrest]
      _ = ((p :: rest).map Prod.snd).sum := by rw [List.map_cons, List.sum_cons]

theorem groupbySum_sum {K : Type} [LinearOrder K] (rows : List (K × ℚ)) :
    ((groupbySum rows).map Prod.snd).sum = (rows.map Prod.snd).sum := by
  unfold groupbySum
  rw [List.map_map]
  have hperm := (sortKeys_perm (rows.map Prod.fst).dedup).map (fun k => sumVals k rows)
  rw [show (Prod.snd ∘ fun k => (k, sumVals k rows)) = fun k => sumVals k rows from rfl,
    hperm.sum_eq]
  exact sum_sumVals rows _ (List.nodup_dedup _)
    (fun p hp => List.mem_dedup.mpr (List.mem_map_of_mem Prod.fst hp))

/-- Claim C3 as amended: on an input whose values sum to zero, every row
of `abc_on_column` gets cumulative percentage `0` and — since the
A-cutoff is nonnegative — every row is classified as the TOP tier "A",
as a defined edge case rather than an error. -/
theorem abc_zero_total_all_top {K : Type} [LinearOrder K] (rows : List (K × ℚ))
    (a_pct b_pct : ℚ) (htot : (rows.map Prod.snd).sum = 0) (ha : 0 ≤ a_pct) :
    ∀ r ∈ abc_on_column rows a_pct b_pct, r.cumulPct = 0 ∧ r.abc = "A" := by
  intro r hr
  have htotal : ((sortDescBy Prod.snd (groupbySum rows)).map Prod.snd).sum = 0 := by
    rw [((sortDescBy_perm Prod.snd (groupbySum rows)).map Prod.snd).sum_eq,
      groupbySum_sum, htot]
  simp only [abc_on_column, List.mem_map] at hr
  obtain ⟨e, he, rfl⟩ := hr
  rw [htotal] at he
  have h0 : e.2 = 0 :=
    cumPercentsBy_zero Prod.snd 0 (lt_irrefl 0) 0 _ e he
  refine ⟨h0, ?_⟩
  show _pct_bins_classifier e.2 a_pct b_pct = "A"
  rw [h0]
  unfold _pct_bins_classifier
  rw [if_pos ha]

/-- Witness for `abc_zero_total_all_top` on the concrete all-zero input
`[(1, 0), (2, 0)]` with cutoffs `70`, `20`. -/
theorem abc_zero_total_all_top_witness :
    (⟨1, 0, 0, "A"⟩ : AbcRow ℕ).cumulPct = 0 ∧ (⟨1, 0, 0, "A"⟩ : AbcRow ℕ).abc = "A" := by
  have hout : abc_on_column [((1:ℕ), (0:ℚ)), (2, 0)] 70 20 =
      [⟨1, 0, 0, "A"⟩, ⟨2, 0, 0, "A"⟩] := by
    norm_num [abc_on_column, groupbySum, sortKeys, insertKey, sumVals, sortDescBy,
      insertDescBy, cumPercentsBy, _pct_bins_classifier, List.dedup_cons_of_not_mem,
      List.dedup_cons_of_mem, List.filter]
  exact abc_zero_total_all_top [((1:ℕ), (0:ℚ)), (2, 0)] 70 20 (by norm_num) (by norm_num)
    ⟨1, 0, 0, "A"⟩ (by rw [hout]; exact List.mem_cons_self _ _)

/-- Claim C6 as amended: in the classified table rows are sorted by
value descending, and rows with equal values appear in ascending KEY
order — the order of the aggregated `groupby` table (whose keys are
ascending), which the stable descending sort preserves — not in original
input order. -/
theorem abc_sort_desc_tie_key_order {K : Type} [LinearOrder K] (rows : List (K × ℚ))
    (a_pct b_pct : ℚ) :
    (abc_on_column rows a_pct b_pct).Pairwise
      (fun r s => s.value ≤ r.value ∧ (r.value = s.value → r.key < s.key)) := by
  have hnd : (sortKeys (rows.map Prod.fst).dedup).Nodup :=
    ((sortKeys_perm _).nodup_iff).mpr (List.nodup_dedup _)
  have hsorted := sortKeys_sorted (rows.map Prod.fst).dedup
  have hlt : (sortKeys (rows.map Prod.fst).dedup).Pairwise (· < ·) :=
    (hsorted.and hnd).imp (fun h => lt_of_le_of_ne h.1 h.2)
  have hkeys : (groupbySum rows).Pairwise (fun p q => p.1 < q.1) := by
    unfold groupbySum
    exact List.pairwise_map.mpr (hlt.imp (fun h => h))
  have hstable := sortDescBy_stable Prod.snd (fun p q : K × ℚ => p.1 < q.1)
    (groupbySum rows) hkeys
  simp only [abc_on_column]
  refine List.pairwise_map.mpr ?_
  have hc : ((cumPercentsBy Prod.snd
      ((sortDescBy Prod.snd (groupbySum rows)).map Prod.snd).sum 0
      (sortDescBy Prod.snd (groupbySum rows))).map Prod.fst).Pairwise
      (fun a b : K × ℚ => b.2 ≤ a.2 ∧ (a.2 = b.2 → a.1 < b.1)) := by
    rw [cumPercentsBy_map_fst]
    exact hstable
  exact (List.pairwise_map.mp hc).imp (fun h => h)

/-- Witness for `abc_sort_desc_tie_key_order` on the concrete tied input
of the counterexample. -/
theorem abc_sort_desc_tie_key_order_witness :
    (abc_on_column [((2:ℕ), (5:ℚ)), (1, 5)] 70 20).Pairwise
      (fun r s => s.value ≤ r.value ∧ (r.value = s.value → r.key < s.key)) :=
  abc_sort_desc_tie_key_order [((2:ℕ), (5:ℚ)), (1, 5)] 70 20

theorem enumFrom_map_snd {α : Type} : ∀ (n : ℕ) (l : List α),
    (List.enumFrom n l).map Prod.snd = l
  | _, [] => rfl
  | n, x :: xs => by simp [List.enumFrom, enumFrom_map_snd (n + 1) xs]

theorem enum_map_snd {α : Type} (l : List α) : l.enum.map Prod.snd = l :=
  enumFrom_map_snd 0 l

theorem snd_mem_of_mem_enum {α : Type} {l : List α} {ir : ℕ × α} (h : ir ∈ l.enum) :
    ir.2 ∈ l := by
  rw [← enum_map_snd l]
  exact List.mem_map_of_mem Prod.snd h

theorem revAssign_proj {K : Type} (idx : List (ℕ × ProdRow K)) (a_pct b_pct : ℚ)
    (ir : ℕ × ProdRow K) :
    (revAssign idx a_pct b_pct ir).abcSales = ir.2.abcSales ∧
    (revAssign idx a_pct b_pct ir).revenue = ir.2.revenue ∧
    (revAssign idx a_pct b_pct ir).cumulPctSales = ir.2.cumulPctSales ∧
    (revAssign idx a_pct b_pct ir).item = ir.2.item := by
  simp only [revAssign]
  split_ifs with h
  · split <;> exact ⟨rfl, rfl, rfl, rfl⟩
  · exact ⟨rfl, rfl, rfl, rfl⟩

theorem cumPercentsBy_form {α : Type} (f : α → ℚ) (total : ℚ)
    (acc : ℚ) (l : List α) : ∀ e ∈ cumPercentsBy f total acc l, ∃ c, e.2 = 100 * c / total ∨ e.2 = 0 := by
  induction l generalizing acc with
  | nil => intro e he; simp [cumPercentsBy] at he
  | cons x xs ih =>
    intro e he
    simp only [cumPercentsBy] at he
    rcases List.mem_cons.mp he with rfl | he'
    · by_cases hp : 0 < total
      · exact ⟨acc + f x, Or.inl (by simp [hp])⟩
      · exact ⟨0, Or.inr (by simp [hp])⟩
    · exact ih _ e he'

theorem revAssign_spec {K : Type} (idx : List (ℕ × ProdRow K)) (a_pct b_pct : ℚ)
    (ir : ℕ × ProdRow K) (hmem : ir ∈ idx) :
    ((((idx.filter (fun e => e.2.abcSales = ir.2.abcSales)).map
        (fun e => e.2.revenue)).sum ≤ 0 →
      (revAssign idx a_pct b_pct ir).abcRev = "C" ∧
      (revAssign idx a_pct b_pct ir).cumulPctRev = 0) ∧
     (0 < (((idx.filter (fun e => e.2.abcSales = ir.2.abcSales)).map
        (fun e => e.2.revenue)).sum) →
      (revAssign idx a_pct b_pct ir).abcRev =
        _pct_bins_classifier (revAssign idx a_pct b_pct ir).cumulPctRev a_pct b_pct ∧
      ∃ c, (revAssign idx a_pct b_pct ir).cumulPctRev =
        100 * c / (((idx.filter (fun e => e.2.abcSales = ir.2.abcSales)).map
          (fun e => e.2.revenue)).sum))) := by
  have hsum : ((sortDescBy (fun e => e.2.revenue)
      (idx.filter (fun e => e.2.abcSales = ir.2.abcSales))).map
        (fun e => e.2.revenue)).sum =
      ((idx.filter (fun e => e.2.abcSales = ir.2.abcSales)).map
        (fun e => e.2.revenue)).sum :=
    ((sortDescBy_perm (fun e : ℕ × ProdRow K => e.2.revenue)
      (idx.filter (fun e => e.2.abcSales = ir.2.abcSales))).map
        (fun e => e.2.revenue)).sum_eq
  constructor
  · intro hle
    simp only [revAssign, hsum]
    rw [if_neg (by intro hc; exact absurd hc.1 (not_lt.mpr hle))]
    exact ⟨rfl, rfl⟩
  · intro hpos
    have hirf : ir ∈ idx.filter (fun e => e.2.abcSales = ir.2.abcSales) :=
      List.mem_filter.mpr ⟨hmem, by simp⟩
    have hirs : ir ∈ sortDescBy (fun e => e.2.revenue)
        (idx.filter (fun e => e.2.abcSales = ir.2.abcSales)) :=
      ((sortDescBy_perm _ _).mem_iff).mpr hirf
    have hlen : 0 < (sortDescBy (fun e => e.2.revenue)
        (idx.filter (fun e => e.2.abcSales = ir.2.abcSales))).length :=
      List.length_pos.mpr (List.ne_nil_of_mem hirs)
    have hfind : ∃ e ∈ cumPercentsBy (fun e => e.2.revenue)
        ((sortDescBy (fun e => e.2.revenue)
          (idx.filter (fun e => e.2.abcSales = ir.2.abcSales))).map
            (fun e => e.2.revenue)).sum 0
        (sortDescBy (fun e => e.2.revenue)
          (idx.filter (fun e => e.2.abcSales = ir.2.abcSales))),
        e.1 = ir := by
      have : ir ∈ (cumPercentsBy (fun e => e.2.revenue)
          ((sortDescBy (fun e => e.2.revenue)
            (idx.filter (fun e => e.2.abcSales = ir.2.abcSales))).map
              (fun e => e.2.revenue)).sum 0
          (sortDescBy (fun e => e.2.revenue)
            (idx.filter (fun e => e.2.abcSales = ir.2.abcSales)))).map Prod.fst := by
        rw [cumPercentsBy_map_fst]
        exact hirs
      obtain ⟨e, he, hfst⟩ := List.mem_map.mp this
      exact ⟨e, he, hfst⟩
    obtain ⟨e0, he0, hfst0⟩ := hfind
    have hfsome : (List.find? (fun e => e.1.1 = ir.1)
        (cumPercentsBy (fun e => e.2.revenue)
          ((sortDescBy (fun e => e.2.revenue)
            (idx.filter (fun e => e.2.abcSales = ir.2.abcSales))).map
              (fun e => e.2.revenue)).sum 0
          (sortDescBy (fun e => e.2.revenue)
            (idx.filter (fun e => e.2.abcSales = ir.2.abcSales))))).isSome := by
      rw [List.find?_isSome]
      exact ⟨e0, he0, by rw [hfst0]; simp⟩
    obtain ⟨e1, he1⟩ := Option.isSome_iff_exists.mp hfsome
    have hmem1 := List.mem_of_find?_eq_some he1
    simp only [revAssign]
    rw [if_pos (by rw [hsum]; exact ⟨hpos, hlen⟩), he1]
    refine ⟨rfl, ?_⟩
    show ∃ c, e1.2 = 100 * c /
      ((idx.filter (fun e => e.2.abcSales = ir.2.abcSales)).map (fun e => e.2.revenue)).sum
    obtain ⟨c, hc⟩ := cumPercentsBy_form (fun e => e.2.revenue) _ 0 _ e1 hmem1
    rcases hc with hc | hc
    · exact ⟨c, by rw [hsum] at hc; exact hc⟩
    · exact ⟨0, by rw [hc]; simp⟩

theorem revAssign_abcRev_mem {K : Type} (idx : List (ℕ × ProdRow K)) (a_pct b_pct : ℚ)
    (ir : ℕ × ProdRow K) (h2 : ir.2.abcRev ∈ (["A", "B", "C"] : List String)) :
    (revAssign idx a_pct b_pct ir).abcRev ∈ (["A", "B", "C"] : List String) := by
  simp only [revAssign]
  split_ifs with h
  · split
    · exact classifier_mem _ _ _
    · exact h2
  · simp

theorem salesStage_fields {K : Type} [LinearOrder K] (rows : List (K × ℚ × ℚ)) (a_pct b_pct : ℚ) :
    ∀ r ∈ salesStage rows a_pct b_pct, r.abcRev = "C" ∧
      r.abcSales ∈ (["A", "B", "C"] : List String) := by
  intro r hr
  simp only [salesStage, List.mem_map] at hr
  obtain ⟨e, he, rfl⟩ := hr
  exact ⟨rfl, classifier_mem _ _ _⟩

theorem filter_map_sum_transport {α β : Type} (l : List α) (h : α → β)
    (sel : β → String) (val : β → ℚ) (sel' : α → String) (val' : α → ℚ)
    (hsel : ∀ e ∈ l, sel (h e) = sel' e) (hval : ∀ e ∈ l, val (h e) = val' e) (grp : String) :
    (((l.map h).filter (fun s => sel s = grp)).map val).sum =
    ((l.filter (fun e => sel' e = grp)).map val').sum := by
  rw [List.filter_map, List.map_map]
  rw [List.filter_congr (fun e he => by
    simp only [Function.comp]
    rw [hsel e he])]
  refine congrArg List.sum (List.map_congr_left ?_)
  intro e he
  have he' : e ∈ l := List.mem_of_mem_filter he
  simp only [Function.comp]
  exact hval e he'

theorem productSegmentation_filter_sum {K : Type} [LinearOrder K] (rows : List (K × ℚ × ℚ))
    (a_pct b_pct : ℚ) (grp : String) :
    (((productSegmentation rows a_pct b_pct).filter (fun s => s.abcSales = grp)).map
      (fun s => s.revenue)).sum =
    (((salesStage rows a_pct b_pct).enum.filter (fun e => e.2.abcSales = grp)).map
      (fun e => e.2.revenue)).sum := by
  have hps : productSegmentation rows a_pct b_pct =
      ((salesStage rows a_pct b_pct).enum).map
        ((fun r : ProdRow K => { r with finalClass := r.abcSales ++ "-" ++ r.abcRev }) ∘
          revAssign (salesStage rows a_pct b_pct).enum a_pct b_pct) := by
    unfold productSegmentation finalStage revenueStage
    rw [List.map_map]
  rw [hps]
  exact filter_map_sum_transport ((salesStage rows a_pct b_pct).enum)
    ((fun r : ProdRow K => { r with finalClass := r.abcSales ++ "-" ++ r.abcRev }) ∘
      revAssign (salesStage rows a_pct b_pct).enum a_pct b_pct)
    (fun s : ProdRow K => s.abcSales) (fun s : ProdRow K => s.revenue)
    (fun e : ℕ × ProdRow K => e.2.abcSales) (fun e : ℕ × ProdRow K => e.2.revenue)
    (fun e _ => by
      show (revAssign (salesStage rows a_pct b_pct).enum a_pct b_pct e).abcSales =
        e.2.abcSales
      exact (revAssign_proj _ _ _ e).1)
    (fun e _ => by
      show (revAssign (salesStage rows a_pct b_pct).enum a_pct b_pct e).revenue =
        e.2.revenue
      exact (revAssign_proj _ _ _ e).2.1) grp

theorem fst_le_of_mem_enumFrom {α : Type} : ∀ {n : ℕ} {l : List α} {ir : ℕ × α},
    ir ∈ List.enumFrom n l → n ≤ ir.1 := by
  intro n l
  induction l generalizing n with
  | nil => intro ir h; cases h
  | cons x xs ih =>
    intro ir h
    simp only [List.enumFrom] at h
    rcases List.mem_cons.mp h with rfl | h'
    · exact le_refl _
    · exact le_trans (Nat.le_succ n) (ih h')

theorem enumFrom_fst_nodup {α : Type} : ∀ (n : ℕ) (l : List α),
    ((List.enumFrom n l).map Prod.fst).Nodup := by
  intro n l
  induction l generalizing n with
  | nil => simp
  | cons x xs ih =>
    simp only [List.enumFrom, List.map_cons]
    refine List.nodup_cons.mpr ⟨?_, ih (n + 1)⟩
    intro hmem
    obtain ⟨ir, hir, hfst⟩ := List.mem_map.mp hmem
    have := fst_le_of_mem_enumFrom hir
    omega

theorem enum_fst_nodup {α : Type} (l : List α) : (l.enum.map Prod.fst).Nodup :=
  enumFrom_fst_nodup 0 l

theorem find?_key_self {β : Type} (key : β → ℕ) :
    ∀ l : List β, (l.map key).Nodup → ∀ en ∈ l,
      l.find? (fun x => key x = key en) = some en := by
  intro l
  induction l with
  | nil => intro _ en hen; cases hen
  | cons a as ih =>
    intro hnd en hen
    rw [List.map_cons, List.nodup_cons] at hnd
    rcases List.mem_cons.mp hen with rfl | hen'
    · exact List.find?_cons_of_pos _ (by simp)
    · have hne : key a ≠ key en := fun h => hnd.1 (h ▸ List.mem_map_of_mem key hen')
      rw [List.find?_cons_of_neg _ (by simpa using hne)]
      exact ih hnd.2 en hen'

theorem cumPercentsBy_map_compat {α : Type} (f : α → ℚ) (total : ℚ) (acc : ℚ) (l : List α) :
    (cumPercentsBy f total acc l).map (fun e => (f e.1, e.2)) =
    cumPercentsBy (fun x : ℚ => x) total acc (l.map f) := by
  induction l generalizing acc with
  | nil => rfl
  | cons x xs ih => simp [cumPercentsBy, ih]

theorem insertDescBy_map_commute {α : Type} (f : α → ℚ) (x : α) :
    ∀ l : List α, (insertDescBy f x l).map f =
      insertDescBy (fun y : ℚ => y) (f x) (l.map f) := by
  intro l
  induction l with
  | nil => rfl
  | cons s ss ih =>
    simp only [insertDescBy, List.map_cons]
    split_ifs with h
    · simp
    · simp [ih]

theorem sortDescBy_map_commute {α : Type} (f : α → ℚ) (l : List α) :
    (sortDescBy f l).map f = sortDescBy (fun y : ℚ => y) (l.map f) := by
  induction l with
  | nil => rfl
  | cons x xs ih =>
    show (insertDescBy f x (sortDescBy f xs)).map f =
      insertDescBy (fun y : ℚ => y) (f x) (sortDescBy (fun y : ℚ => y) (xs.map f))
    rw [insertDescBy_map_commute, ih]

theorem revAssign_partition_pairs {K : Type} (idx : List (ℕ × ProdRow K)) (a_pct b_pct : ℚ)
    (grp : String) (hnd : (idx.map Prod.fst).Nodup)
    (hpos : 0 < ((idx.filter (fun e => e.2.abcSales = grp)).map (fun e => e.2.revenue)).sum) :
    List.Perm
      ((idx.filter (fun e => e.2.abcSales = grp)).map
        (fun e => ((revAssign idx a_pct b_pct e).revenue,
          (revAssign idx a_pct b_pct e).cumulPctRev)))
      (cumPercentsBy (fun x : ℚ => x)
        ((idx.filter (fun e => e.2.abcSales = grp)).map (fun e => e.2.revenue)).sum 0
        (sortDescBy (fun x : ℚ => x)
          ((idx.filter (fun e => e.2.abcSales = grp)).map (fun e => e.2.revenue)))) := by
  have hperm0 : List.Perm
      (sortDescBy (fun e : ℕ × ProdRow K => e.2.revenue)
        (idx.filter (fun e => e.2.abcSales = grp)))
      (idx.filter (fun e => e.2.abcSales = grp)) :=
    sortDescBy_perm _ _
  have htot : ((sortDescBy (fun e : ℕ × ProdRow K => e.2.revenue)
      (idx.filter (fun e => e.2.abcSales = grp))).map (fun e => e.2.revenue)).sum =
      ((idx.filter (fun e => e.2.abcSales = grp)).map (fun e => e.2.revenue)).sum :=
    (hperm0.map _).sum_eq
  have hpos' : 0 < ((sortDescBy (fun e : ℕ × ProdRow K => e.2.revenue)
      (idx.filter (fun e => e.2.abcSales = grp))).map (fun e => e.2.revenue)).sum := by
    rw [htot]
    exact hpos
  have hnd1 : ((idx.filter (fun e => e.2.abcSales = grp)).map Prod.fst).Nodup :=
    List.Nodup.sublist ((List.filter_sublist idx).map Prod.fst) hnd
  have hnd2 : ((sortDescBy (fun e : ℕ × ProdRow K => e.2.revenue)
      (idx.filter (fun e => e.2.abcSales = grp))).map Prod.fst).Nodup :=
    ((hperm0.map Prod.fst).nodup_iff).mpr hnd1
  have hcumfst := cumPercentsBy_map_fst (fun e : ℕ × ProdRow K => e.2.revenue)
    ((sortDescBy (fun e : ℕ × ProdRow K => e.2.revenue)
      (idx.filter (fun e => e.2.abcSales = grp))).map (fun e => e.2.revenue)).sum 0
    (sortDescBy (fun e : ℕ × ProdRow K => e.2.revenue)
      (idx.filter (fun e => e.2.abcSales = grp)))
  have hndcum : ((cumPercentsBy (fun e : ℕ × ProdRow K => e.2.revenue)
      ((sortDescBy (fun e : ℕ × ProdRow K => e.2.revenue)
        (idx.filter (fun e => e.2.abcSales = grp))).map (fun e => e.2.revenue)).sum 0
      (sortDescBy (fun e : ℕ × ProdRow K => e.2.revenue)
        (idx.filter (fun e => e.2.abcSales = grp)))).map
          (fun x => x.1.1)).Nodup := by
    have h2 := hnd2
    rw [← hcumfst, List.map_map] at h2
    exact h2
  have hfind : ∀ en ∈ cumPercentsBy (fun e : ℕ × ProdRow K => e.2.revenue)
      ((sortDescBy (fun e : ℕ × ProdRow K => e.2.revenue)
        (idx.filter (fun e => e.2.abcSales = grp))).map (fun e => e.2.revenue)).sum 0
      (sortDescBy (fun e : ℕ × ProdRow K => e.2.revenue)
        (idx.filter (fun e => e.2.abcSales = grp))),
      (cumPercentsBy (fun e : ℕ × ProdRow K => e.2.revenue)
        ((sortDescBy (fun e : ℕ × ProdRow K => e.2.revenue)
          (idx.filter (fun e => e.2.abcSales = grp))).map (fun e => e.2.revenue)).sum 0
        (sortDescBy (fun e : ℕ × ProdRow K => e.2.revenue)
          (idx.filter (fun e => e.2.abcSales = grp)))).find?
            (fun x => x.1.1 = en.1.1) = some en := by
    intro en hen
    exact find?_key_self (fun x : (ℕ × ProdRow K) × ℚ => x.1.1) _ hndcum en hen
  have hGat : ∀ en ∈ cumPercentsBy (fun e : ℕ × ProdRow K => e.2.revenue)
      ((sortDescBy (fun e : ℕ × ProdRow K => e.2.revenue)
        (idx.filter (fun e => e.2.abcSales = grp))).map (fun e => e.2.revenue)).sum 0
      (sortDescBy (fun e : ℕ × ProdRow K => e.2.revenue)
        (idx.filter (fun e => e.2.abcSales = grp))),
      revAssign idx a_pct b_pct en.1 =
        { en.1.2 with
          cumulPctRev := en.2
          abcRev := _pct_bins_classifier en.2 a_pct b_pct } := by
    intro en hen
    have hmem_sub : en.1 ∈ sortDescBy (fun e : ℕ × ProdRow K => e.2.revenue)
        (idx.filter (fun e => e.2.abcSales = grp)) := by
      rw [← hcumfst]
      exact List.mem_map_of_mem Prod.fst hen
    have hmem_f : en.1 ∈ idx.filter (fun e => e.2.abcSales = grp) :=
      hperm0.mem_iff.mp hmem_sub
    have habc : en.1.2.abcSales = grp :=
      of_decide_eq_true (List.mem_filter.mp hmem_f).2
    have hlen : 0 < (sortDescBy (fun e : ℕ × ProdRow K => e.2.revenue)
        (idx.filter (fun e => e.2.abcSales = grp))).length :=
      List.length_pos.mpr (List.ne_nil_of_mem hmem_sub)
    simp only [revAssign, habc]
    rw [if_pos ⟨hpos', hlen⟩, hfind en hen]
  have hpairs : (sortDescBy (fun e : ℕ × ProdRow K => e.2.revenue)
      (idx.filter (fun e => e.2.abcSales = grp))).map
        (fun e => ((revAssign idx a_pct b_pct e).revenue,
          (revAssign idx a_pct b_pct e).cumulPctRev)) =
      (cumPercentsBy (fun e : ℕ × ProdRow K => e.2.revenue)
        ((sortDescBy (fun e : ℕ × ProdRow K => e.2.revenue)
          (idx.filter (fun e => e.2.abcSales = grp))).map (fun e => e.2.revenue)).sum 0
        (sortDescBy (fun e : ℕ × ProdRow K => e.2.revenue)
          (idx.filter (fun e => e.2.abcSales = grp)))).map
            (fun en => (en.1.2.revenue, en.2)) := by
    conv_lhs => rw [← hcumfst]
    rw [List.map_map]
    apply List.map_congr_left
    intro en hen
    show ((revAssign idx a_pct b_pct en.1).revenue,
      (revAssign idx a_pct b_pct en.1).cumulPctRev) = (en.1.2.revenue, en.2)
    rw [hGat en hen]
  have h1 := (hperm0.map (fun e => ((revAssign idx a_pct b_pct e).revenue,
    (revAssign idx a_pct b_pct e).cumulPctRev))).symm
  rw [hpairs] at h1
  rw [show (cumPercentsBy (fun e : ℕ × ProdRow K => e.2.revenue)
      ((sortDescBy (fun e : ℕ × ProdRow K => e.2.revenue)
        (idx.filter (fun e => e.2.abcSales = grp))).map (fun e => e.2.revenue)).sum 0
      (sortDescBy (fun e : ℕ × ProdRow K => e.2.revenue)
        (idx.filter (fun e => e.2.abcSales = grp)))).map
          (fun en => (en.1.2.revenue, en.2)) =
    cumPercentsBy (fun x : ℚ => x)
      ((sortDescBy (fun e : ℕ × ProdRow K => e.2.revenue)
        (idx.filter (fun e => e.2.abcSales = grp))).map (fun e => e.2.revenue)).sum 0
      ((sortDescBy (fun e : ℕ × ProdRow K => e.2.revenue)
        (idx.filter (fun e => e.2.abcSales = grp))).map (fun e => e.2.revenue))
    from cumPercentsBy_map_compat (fun e : ℕ × ProdRow K => e.2.revenue) _ 0 _] at h1
  rw [htot, sortDescBy_map_commute (fun e : ℕ × ProdRow K => e.2.revenue)
    (idx.filter (fun e => e.2.abcSales = grp))] at h1
  exact h1

set_option maxHeartbeats 8000000 in
/-- Claim C8: in the nested two-level classifier every row carries
exactly one composite label — the concatenation of its primary (sales)
tier and its secondary (revenue) tier — and the labels lie in the 9
combinations of two 3-tier axes; a partition whose revenue total is not
positive classifies all of its members as the lowest secondary tier "C";
every member of a positive-total partition gets its secondary class from
`_pct_bins_classifier` applied to its own secondary cumulative
percentage; and those percentages are scoped to the partition itself:
the multiset of (revenue, cumulative%) pairs of each positive-total
partition is exactly what the cumulate pipeline produces on the
partition's own revenue column, sorted descending, with the PARTITION's
total as denominator — not the global total. -/
theorem nested_abc_partition {K : Type} [LinearOrder K] (rows : List (K × ℚ × ℚ))
    (a_pct b_pct : ℚ) :
    (∀ r ∈ productSegmentation rows a_pct b_pct,
      r.finalClass = r.abcSales ++ "-" ++ r.abcRev ∧
      r.abcSales ∈ (["A", "B", "C"] : List String) ∧
      r.abcRev ∈ (["A", "B", "C"] : List String) ∧
      r.finalClass ∈ (["A-A", "A-B", "A-C", "B-A", "B-B", "B-C", "C-A", "C-B", "C-C"] :
        List String)) ∧
    (∀ grp : String, ∀ r ∈ productSegmentation rows a_pct b_pct, r.abcSales = grp →
      ((((productSegmentation rows a_pct b_pct).filter (fun s => s.abcSales = grp)).map
          (fun s => s.revenue)).sum ≤ 0 →
        r.abcRev = "C" ∧ r.cumulPctRev = 0) ∧
      (0 < (((productSegmentation rows a_pct b_pct).filter (fun s => s.abcSales = grp)).map
          (fun s => s.revenue)).sum →
        r.abcRev = _pct_bins_classifier r.cumulPctRev a_pct b_pct)) ∧
    (∀ grp : String,
      0 < (((productSegmentation rows a_pct b_pct).filter (fun s => s.abcSales = grp)).map
          (fun s => s.revenue)).sum →
      List.Perm
        (((productSegmentation rows a_pct b_pct).filter (fun s => s.abcSales = grp)).map
          (fun s => (s.revenue, s.cumulPctRev)))
        (cumPercentsBy (fun x : ℚ => x)
          (((productSegmentation rows a_pct b_pct).filter (fun s => s.abcSales = grp)).map
            (fun s => s.revenue)).sum 0
          (sortDescBy (fun x : ℚ => x)
            (((productSegmentation rows a_pct b_pct).filter (fun s => s.abcSales = grp)).map
              (fun s => s.revenue))))) := by
  refine ⟨?_, ?_, ?_⟩
  · intro r hr
    simp only [productSegmentation, finalStage, List.mem_map] at hr
    obtain ⟨g, hg, rfl⟩ := hr
    simp only [revenueStage, List.mem_map] at hg
    obtain ⟨ir, hir, rfl⟩ := hg
    have hbase := salesStage_fields rows a_pct b_pct ir.2 (snd_mem_of_mem_enum hir)
    have hsales : (revAssign (salesStage rows a_pct b_pct).enum a_pct b_pct ir).abcSales ∈
        (["A", "B", "C"] : List String) := by
      rw [(revAssign_proj _ _ _ ir).1]
      exact hbase.2
    have hrev : (revAssign (salesStage rows a_pct b_pct).enum a_pct b_pct ir).abcRev ∈
        (["A", "B", "C"] : List String) :=
      revAssign_abcRev_mem _ _ _ _ (by rw [hbase.1]; simp)
    refine ⟨rfl, hsales, hrev, ?_⟩
    show (revAssign (salesStage rows a_pct b_pct).enum a_pct b_pct ir).abcSales ++ "-" ++
      (revAssign (salesStage rows a_pct b_pct).enum a_pct b_pct ir).abcRev ∈ _
    simp only [List.mem_cons, List.not_mem_nil, or_false] at hsales hrev
    rcases hsales with h1 | h1 | h1 <;> rcases hrev with h2 | h2 | h2 <;>
      rw [h1, h2] <;> decide
  · intro grp r hr hgrp
    simp only [productSegmentation, finalStage, List.mem_map] at hr
    obtain ⟨g, hg, rfl⟩ := hr
    simp only [revenueStage, List.mem_map] at hg
    obtain ⟨ir, hir, rfl⟩ := hg
    have hgrp2 : ir.2.abcSales = grp := by
      rw [← (revAssign_proj (salesStage rows a_pct b_pct).enum a_pct b_pct ir).1]
      exact hgrp
    subst hgrp2
    have hsum := productSegmentation_filter_sum rows a_pct b_pct ir.2.abcSales
    have hspec := revAssign_spec (salesStage rows a_pct b_pct).enum a_pct b_pct ir hir
    constructor
    · intro hle
      rw [hsum] at hle
      exact hspec.1 hle
    · intro hpos
      rw [hsum] at hpos
      exact (hspec.2 hpos).1
  · intro grp hpos
    have hps : productSegmentation rows a_pct b_pct =
        ((salesStage rows a_pct b_pct).enum).map
          ((fun r : ProdRow K => { r with finalClass := r.abcSales ++ "-" ++ r.abcRev }) ∘
            revAssign (salesStage rows a_pct b_pct).enum a_pct b_pct) := by
      unfold productSegmentation finalStage revenueStage
      rw [List.map_map]
    have h_filter : (productSegmentation rows a_pct b_pct).filter
        (fun s => s.abcSales = grp) =
        ((salesStage rows a_pct b_pct).enum.filter (fun e => e.2.abcSales = grp)).map
          ((fun r : ProdRow K => { r with finalClass := r.abcSales ++ "-" ++ r.abcRev }) ∘
            revAssign (salesStage rows a_pct b_pct).enum a_pct b_pct) := by
      rw [hps, List.filter_map]
      congr 1
      apply List.filter_congr
      intro e he
      show decide ((revAssign (salesStage rows a_pct b_pct).enum a_pct b_pct e).abcSales = grp)
        = decide (e.2.abcSales = grp)
      rw [(revAssign_proj _ _ _ e).1]
    have h_pairs_map : ((productSegmentation rows a_pct b_pct).filter
          (fun s => s.abcSales = grp)).map (fun s => (s.revenue, s.cumulPctRev)) =
        ((salesStage rows a_pct b_pct).enum.filter (fun e => e.2.abcSales = grp)).map
          (fun e => ((revAssign (salesStage rows a_pct b_pct).enum a_pct b_pct e).revenue,
            (revAssign (salesStage rows a_pct b_pct).enum a_pct b_pct e).cumulPctRev)) := by
      rw [h_filter, List.map_map]
      apply List.map_congr_left
      intro e he
      rfl
    have h_rev_map : ((productSegmentation rows a_pct b_pct).filter
          (fun s => s.abcSales = grp)).map (fun s => s.revenue) =
        ((salesStage rows a_pct b_pct).enum.filter (fun e => e.2.abcSales = grp)).map
          (fun e => e.2.revenue) := by
      rw [h_filter, List.map_map]
      apply List.map_congr_left
      intro e he
      show (revAssign (salesStage rows a_pct b_pct).enum a_pct b_pct e).revenue = e.2.revenue
      exact (revAssign_proj _ _ _ e).2.1
    rw [h_pairs_map, h_rev_map]
    rw [h_rev_map] at hpos
    exact revAssign_partition_pairs (salesStage rows a_pct b_pct).enum a_pct b_pct grp
      (enum_fst_nodup _) hpos

/-- Witness for `nested_abc_partition` on the concrete one-item input
`[(1, 2, 3)]` with cutoffs `70`, `20`: the single row lands in sales
class "C" with composite label "C-C", its revenue class comes from the
classifier at its own cumulative percentage, and the partition's
(revenue, cumulative%) pairs are the cumulate pipeline of the
partition's own revenue column `[3]` with the partition total `3`. -/
theorem nested_abc_partition_witness :
    (⟨1, 2, 3, 100, "C", 100, "C", "C-C"⟩ : ProdRow ℕ).finalClass =
      (⟨1, 2, 3, 100, "C", 100, "C", "C-C"⟩ : ProdRow ℕ).abcSales ++ "-" ++
      (⟨1, 2, 3, 100, "C", 100, "C", "C-C"⟩ : ProdRow ℕ).abcRev ∧
    (⟨1, 2, 3, 100, "C", 100, "C", "C-C"⟩ : ProdRow ℕ).finalClass ∈
      (["A-A", "A-B", "A-C", "B-A", "B-B", "B-C", "C-A", "C-B", "C-C"] : List String) ∧
    (⟨1, 2, 3, 100, "C", 100, "C", "C-C"⟩ : ProdRow ℕ).abcRev =
      _pct_bins_classifier (⟨1, 2, 3, 100, "C", 100, "C", "C-C"⟩ : ProdRow ℕ).cumulPctRev
        70 20 ∧
    List.Perm
      (((productSegmentation [((1:ℕ), (2:ℚ), (3:ℚ))] 70 20).filter
        (fun s => s.abcSales = "C")).map (fun s => (s.revenue, s.cumulPctRev)))
      (cumPercentsBy (fun x : ℚ => x)
        (((productSegmentation [((1:ℕ), (2:ℚ), (3:ℚ))] 70 20).filter
          (fun s => s.abcSales = "C")).map (fun s => s.revenue)).sum 0
        (sortDescBy (fun x : ℚ => x)
          (((productSegmentation [((1:ℕ), (2:ℚ), (3:ℚ))] 70 20).filter
            (fun s => s.abcSales = "C")).map (fun s => s.revenue)))) := by
  have happ : ("C" ++ "-" ++ "C" : String) = "C-C" := by decide
  have hout : productSegmentation [((1:ℕ), (2:ℚ), (3:ℚ))] 70 20 =
      [⟨1, 2, 3, 100, "C", 100, "C", "C-C"⟩] := by
    norm_num [happ, productSegmentation, salesStage, finalStage, revenueStage, revAssign,
      groupbySum2, sortKeys, insertKey, sortDescBy, insertDescBy, cumPercentsBy,
      _pct_bins_classifier, List.dedup_cons_of_not_mem, List.dedup_cons_of_mem,
      List.filter, List.enum, List.enumFrom, List.find?]
  have hmem : (⟨1, 2, 3, 100, "C", 100, "C", "C-C"⟩ : ProdRow ℕ) ∈
      productSegmentation [((1:ℕ), (2:ℚ), (3:ℚ))] 70 20 := by
    rw [hout]
    exact List.mem_cons_self _ _
  have h1 := (nested_abc_partition [((1:ℕ), (2:ℚ), (3:ℚ))] 70 20).1 _ hmem
  have hfilter : ((productSegmentation [((1:ℕ), (2:ℚ), (3:ℚ))] 70 20).filter
      (fun s => s.abcSales = "C")).map (fun s => s.revenue) = [3] := by
    rw [hout]
    norm_num [List.filter]
  have h2 := ((nested_abc_partition [((1:ℕ), (2:ℚ), (3:ℚ))] 70 20).2.1 "C" _ hmem rfl).2
    (by rw [hfilter]; norm_num)
  have h3 := (nested_abc_partition [((1:ℕ), (2:ℚ), (3:ℚ))] 70 20).2.2 "C"
    (by rw [hfilter]; norm_num)
  exact ⟨h1.1, h1.2.2.2, h2, h3⟩
